import Mathlib

/-! Verification development for `example.cc` (H → γγ histogramming example).

The program reads the records of the tree `"HGamData"` of an input ROOT file,
builds the photon and jet four-vectors of every record, fills the two histograms
`m_yy` and `pT_j1`, and writes them to an output ROOT file.

The embedding follows `main` of `src/example.cc` statement by statement.  The three
ROOT collaborators that the program only calls (the histogram `TH1D`, the four-vector
`TLorentzVector`, the files `TFile`/`TTree`) are not part of the repository; they enter
as follows:

* `TLorentzVector` is an interface parameter (`TLorentzVectorOps`): every theorem about
  the event loop holds for every implementation of it;
* `TH1D` is modelled from its contract in the specification (fixed, equal-width,
  half-open bins with an underflow and an overflow cell);
* the file system is an explicit environment (`Env`).

Floating-point values (`Float_t`, `Double_t`) are represented by exact rationals.
-/

namespace HGam

/-! ## Histogram collaborator -/

/-- Modelled from the spec: the histogram accumulator `TH1D` (ROOT, not under `src/`).
A named accumulator with a fixed bin count over a fixed range.  `fArray` holds
`nbins + 2` cells: cell `0` is the underflow bucket, cells `1 .. nbins` are the
bins, cell `nbins + 1` is the overflow bucket.  `fEntries` counts the recorded
observations. -/
structure TH1D where
  name : String
  title : String
  nbins : Nat
  xmin : ℚ
  xmax : ℚ
  fArray : List Nat
  fEntries : Nat
deriving DecidableEq

/-- Modelled from the spec: the constructor `TH1D(name, title, nbins, xmin, xmax)`,
which yields an empty histogram with the given binning. -/
def TH1D.new (name title : String) (nbins : Nat) (xmin xmax : ℚ) : TH1D :=
  { name := name, title := title, nbins := nbins, xmin := xmin, xmax := xmax,
    fArray := List.replicate (nbins + 2) 0, fEntries := 0 }

/-- Modelled from the spec: the cell an observation falls in, under the standard
half-open convention: below `xmin` is underflow (cell `0`), at or above `xmax`
is overflow (cell `nbins + 1`), and bin `i` covers
`[xmin + (i-1)·w, xmin + i·w)` with `w = (xmax - xmin) / nbins`. -/
def TH1D.FindBin (h : TH1D) (x : ℚ) : Nat :=
  if x < h.xmin then 0
  else if ¬ (x < h.xmax) then h.nbins + 1
  else 1 + (Rat.floor ((h.nbins : ℚ) * (x - h.xmin) / (h.xmax - h.xmin))).toNat

/-- Lower edge of cell `i` (meaningful for `1 ≤ i ≤ nbins + 1`). -/
def TH1D.binLowEdge (h : TH1D) (i : Nat) : ℚ :=
  h.xmin + ((i : ℚ) - 1) * (h.xmax - h.xmin) / (h.nbins : ℚ)

/-- Increment of one cell of the content array; an index outside the array
leaves it unchanged. -/
def AddBinContent : List Nat → Nat → List Nat
  | [], _ => []
  | c :: cs, 0 => (c + 1) :: cs
  | c :: cs, b + 1 => c :: AddBinContent cs b

/-- Modelled from the spec: `TH1D::Fill(x)`, "record an observation of value `x`":
the cell of `x` is incremented and the observation is counted. -/
def TH1D.Fill (h : TH1D) (x : ℚ) : TH1D :=
  { h with fArray := AddBinContent h.fArray (h.FindBin x), fEntries := h.fEntries + 1 }

/-- Content of cell `i`. -/
def TH1D.GetBinContent (h : TH1D) (i : Nat) : Nat := h.fArray.getD i 0

/-- Sum of all cells, underflow and overflow included. -/
def TH1D.total (h : TH1D) : Nat := h.fArray.sum

/-! ## Four-vector collaborator -/

/-- The operations of `TLorentzVector` that `main` uses, over a carrier `V`:
the default constructor, `SetPtEtaPhiM` (which overwrites all four components
of its receiver, hence a function of its arguments alone), `operator+`, `M()`
and `Pt()`. -/
structure TLorentzVectorOps (V : Type) where
  default : V
  SetPtEtaPhiM : ℚ → ℚ → ℚ → ℚ → V
  add : V → V → V
  M : V → ℚ
  Pt : V → ℚ

/-! ## Input collaborator -/

/-- One entry of the tree: the branches read through `b_njets`, `b_photon_*`
and `b_jet_*`.  `njets` is a `UInt_t`; the arrays are `Float_t` arrays, held
here with their actual lengths. -/
structure EventRecord where
  njets : Nat
  photon_pt : List ℚ
  photon_eta : List ℚ
  photon_phi : List ℚ
  photon_m : List ℚ
  jet_pt : List ℚ
  jet_eta : List ℚ
  jet_phi : List ℚ
  jet_m : List ℚ
deriving DecidableEq

/-- An object stored in a ROOT file under a name: a tree with its entries in
storage order, or an object of another class. -/
inductive TObject where
  | tree (entries : List EventRecord)
  | other
deriving DecidableEq

/-- The call `fin.Get<TTree>(name)`: the entries of the tree stored under `name`,
`none` (a null pointer) when nothing is stored under it or the object is not a
tree. -/
def GetTTree (fin : List (String × TObject)) (name : String) : Option (List EventRecord) :=
  match fin.lookup name with
  | some (TObject.tree entries) => some entries
  | _ => none

/-! ## The event loop -/

/-- Modelled from the spec: the progress counter `ivanp::tcnt` (`include/tcnt.hh`,
not under `src/`): constructed with the number of entries and advanced once
per processed record.  What it prints depends on wall-clock time; it has no
effect on the histograms. -/
structure tcnt where
  total : Nat
  count : Nat
deriving DecidableEq

/-- The increment `++cnt` of the event loop. -/
def tcnt.incr (c : tcnt) : tcnt := { c with count := c.count + 1 }

/-- The variables that live across iterations of the event loop: the progress
counter, the two particle containers and the two histograms. -/
structure LoopState (V : Type) where
  cnt : tcnt
  photons : List V
  jets : List V
  h_m_yy : TH1D
  h_pT_j1 : TH1D

/-- The call `std::vector::resize(n)`: the first `n` elements are kept, missing
ones are default-constructed. -/
def resize {V : Type} (xs : List V) (n : Nat) (d : V) : List V :=
  xs.take n ++ List.replicate (n - xs.length) d

/-- The loops `for (i ...) v[i].SetPtEtaPhiM(pt[i], eta[i], phi[i], m[i])` over
the indices `idx`.  Reading a branch array or the container out of range is
undefined behaviour in the source and yields `none`. -/
def setParticles {V : Type} (K : TLorentzVectorOps V) (pt eta phi m : List ℚ) :
    List Nat → List V → Option (List V)
  | [], v => some v
  | i :: idx, v =>
    match pt[i]?, eta[i]?, phi[i]?, m[i]? with
    | some a, some b, some c, some d =>
      if i < v.length then
        setParticles K pt eta phi m idx (v.set i (K.SetPtEtaPhiM a b c d))
      else none
    | _, _, _, _ => none

/-- One iteration of the event loop (the body of the `for` over `reader.Next()`). -/
def eventStep {V : Type} (K : TLorentzVectorOps V) (s : LoopState V) (r : EventRecord) :
    Option (LoopState V) :=
  -- construct 4-vectors of photons' momenta
  match setParticles K r.photon_pt r.photon_eta r.photon_phi r.photon_m (List.range 2)
      s.photons with
  | none => none
  | some photons =>
    -- construct 4-vectors of jets' momenta
    let njets := r.njets
    match setParticles K r.jet_pt r.jet_eta r.jet_phi r.jet_m (List.range njets)
        (resize s.jets njets K.default) with
    | none => none
    | some jets =>
      match photons[0]?, photons[1]? with
      | some p0, some p1 =>
        let diphoton := K.add p0 p1
        let m_yy := K.M diphoton
        let h_m_yy := s.h_m_yy.Fill m_yy
        if njets < 1 then
          some { cnt := s.cnt, photons := photons, jets := jets, h_m_yy := h_m_yy,
                 h_pT_j1 := s.h_pT_j1 }
        else
          match jets[0]? with
          | some j0 =>
            some { cnt := s.cnt, photons := photons, jets := jets, h_m_yy := h_m_yy,
                   h_pT_j1 := s.h_pT_j1.Fill (K.Pt j0) }
          | none => none
      | _, _ => none

/-- The event loop `for (tcnt cnt(...); reader.Next(); ++cnt)`: one `eventStep`
per entry of the tree, in storage order, each followed by `++cnt` (also when
the body ends with `continue`). -/
def eventLoop {V : Type} (K : TLorentzVectorOps V) :
    LoopState V → List EventRecord → Option (LoopState V)
  | s, [] => some s
  | s, r :: rs =>
    match eventStep K s r with
    | none => none
    | some s1 => eventLoop K { s1 with cnt := s1.cnt.incr } rs

/-! ## `main` -/

/-- What the run finds on disk: whether the output path can be opened for
writing, the histograms stored at the output path before the run (`none` when
the file does not exist), and the objects of the input file as found when
`TFile fin(argv[1])` opens it (`none` when it cannot be opened). -/
structure Env where
  outOpens : Bool
  outBefore : Option (List TH1D)
  inFile : Option (List (String × TObject))

/-- The file-level operations of a run, in program order. -/
inductive Op where
  | openOutputRecreate (path : String)
  | newTH1D (name : String)
  | openInput (path : String)
  | getTree (name : String)
  | write
deriving DecidableEq

/-- What a run leaves behind: the exit code, what was printed on `cout` and on
`cerr`, the file-level operations performed, the histograms stored at the
output path afterwards, and the two histogram objects if they were created. -/
structure Outcome where
  code : Int
  cout : List String
  cerr : List String
  ops : List Op
  outFile : Option (List TH1D)
  hists : Option (TH1D × TH1D)
deriving DecidableEq

/-- The text of `cout << "usage: " << argv[0] << " data.root histograms.root\n"`.
With `argc = 0` the pointer `argv[0]` is null: streaming it puts `cout` in the
failed state, so that only `usage: ` is printed. -/
def usageMessage : List String → String
  | [] => "usage: "
  | prog :: _ => "usage: " ++ prog ++ " data.root histograms.root\n"

def errOutput : String := "\x1b[31mcannot open output ROOT file\x1b[0m\n"

def errInput : String := "\x1b[31mcannot open input ROOT file\x1b[0m\n"

def errTree : String := "\x1b[31mcannot get TTree \"HGamData\"\x1b[0m\n"

def readingMessage (argv : List String) : String :=
  "reading input ROOT file \"" ++ argv.getD 1 "" ++ "\"\n"

/-- The histogram `h_m_yy` as declared in `main`. -/
def h_m_yy_new : TH1D := TH1D.new "m_yy" "" 110 105 160

/-- The histogram `h_pT_j1` as declared in `main`. -/
def h_pT_j1_new : TH1D := TH1D.new "pT_j1" "" 500 0 1000

/-- The loop variables when the event loop is entered: the counter
`cnt(reader.GetEntries())`, `photons(2)`, an empty `jets`, and the two empty
histograms. -/
def initState {V : Type} (K : TLorentzVectorOps V) (entries : Nat) : LoopState V :=
  { cnt := { total := entries, count := 0 },
    photons := List.replicate 2 K.default, jets := [],
    h_m_yy := h_m_yy_new, h_pT_j1 := h_pT_j1_new }

/-- The function `main(argc, argv)` with `argc = argv.length`.  The result is `none`
exactly when the event loop reads a branch array out of range (undefined
behaviour in the source).  The console ticks of the progress counter `tcnt`
depend on wall-clock time and are not part of `cout` here. -/
def main {V : Type} (K : TLorentzVectorOps V) (argv : List String) (env : Env) :
    Option Outcome :=
  let argc := argv.length
  if argc ≠ 3 then
    some { code := 1, cout := [usageMessage argv], cerr := [], ops := [],
           outFile := env.outBefore, hists := none }
  else
    -- open ROOT file for writing
    let ops1 := [Op.openOutputRecreate (argv.getD 2 "")]
    if env.outOpens = false then
      some { code := 1, cout := [], cerr := [errOutput], ops := ops1,
             outFile := env.outBefore, hists := none }
    else
      -- create histograms with the desired binning
      let ops2 := ops1 ++ [Op.newTH1D "m_yy", Op.newTH1D "pT_j1"]
      -- open input ROOT file for reading
      let cout1 := [readingMessage argv]
      let ops3 := ops2 ++ [Op.openInput (argv.getD 1 "")]
      match env.inFile with
      | none =>
        some { code := 1, cout := cout1, cerr := [errInput], ops := ops3,
               outFile := some [], hists := some (h_m_yy_new, h_pT_j1_new) }
      | some fin =>
        -- get the tree called "HGamData" and make sure it exists
        let ops4 := ops3 ++ [Op.getTree "HGamData"]
        match GetTTree fin "HGamData" with
        | none =>
          some { code := 1, cout := cout1, cerr := [errTree], ops := ops4,
                 outFile := some [], hists := some (h_m_yy_new, h_pT_j1_new) }
        | some tree =>
          match eventLoop K (initState K tree.length) tree with
          | none => none
          | some s =>
            some { code := 0, cout := cout1 ++ ["\n"], cerr := [], ops := ops4 ++ [Op.write],
                   outFile := some [s.h_m_yy, s.h_pT_j1],
                   hists := some (s.h_m_yy, s.h_pT_j1) }

/-! ## Well-formed records -/

/-- The data-model invariant of a record: every photon array has at least two
entries and every jet array has at least `njets` entries, so that the event
loop never reads out of range. -/
def EventRecord.wf (r : EventRecord) : Prop :=
  2 ≤ r.photon_pt.length ∧ 2 ≤ r.photon_eta.length ∧
  2 ≤ r.photon_phi.length ∧ 2 ≤ r.photon_m.length ∧
  r.njets ≤ r.jet_pt.length ∧ r.njets ≤ r.jet_eta.length ∧
  r.njets ≤ r.jet_phi.length ∧ r.njets ≤ r.jet_m.length

instance (r : EventRecord) : Decidable r.wf := by
  unfold EventRecord.wf; infer_instance

/-- The four-vector built from slot `i` of four parallel branch arrays. -/
def particleAt {V : Type} (K : TLorentzVectorOps V) (pt eta phi m : List ℚ) (i : Nat) : V :=
  K.SetPtEtaPhiM (pt.getD i 0) (eta.getD i 0) (phi.getD i 0) (m.getD i 0)

/-- The diphoton mass of a record: `(photons[0] + photons[1]).M()`. -/
def diphotonMass {V : Type} (K : TLorentzVectorOps V) (r : EventRecord) : ℚ :=
  K.M (K.add (particleAt K r.photon_pt r.photon_eta r.photon_phi r.photon_m 0)
             (particleAt K r.photon_pt r.photon_eta r.photon_phi r.photon_m 1))

/-- The leading-jet transverse momentum of a record: `jets[0].Pt()`. -/
def leadingJetPt {V : Type} (K : TLorentzVectorOps V) (r : EventRecord) : ℚ :=
  K.Pt (particleAt K r.jet_pt r.jet_eta r.jet_phi r.jet_m 0)

/-- The invariant of a histogram: the range is not empty and the content array
has its `nbins + 2` cells. -/
def TH1D.Valid (h : TH1D) : Prop :=
  h.xmin < h.xmax ∧ h.fArray.length = h.nbins + 2

/-- The effect of one iteration on the two histograms, as a function of the
record alone. -/
def stepHists {V : Type} (K : TLorentzVectorOps V) (hs : TH1D × TH1D) (r : EventRecord) :
    TH1D × TH1D :=
  (hs.1.Fill (diphotonMass K r),
   if r.njets < 1 then hs.2 else hs.2.Fill (leadingJetPt K r))

/-- Two histograms have the same binning: bin count and range agree. -/
def TH1D.sameBinning (a b : TH1D) : Prop :=
  a.nbins = b.nbins ∧ a.xmin = b.xmin ∧ a.xmax = b.xmax

/-! ## A concrete four-vector implementation for examples -/

/-- An exact-arithmetic stand-in for the four-vector collaborator, used to run
the program on concrete data: a vector keeps `(pt, m)`, addition is
componentwise, `M` and `Pt` read the components back. -/
def exampleOps : TLorentzVectorOps (ℚ × ℚ) where
  default := (0, 0)
  SetPtEtaPhiM := fun pt _ _ m => (pt, m)
  add := fun a b => (a.1 + b.1, a.2 + b.2)
  M := fun v => v.2
  Pt := fun v => v.1

/-- A record without jets; with `exampleOps` its diphoton mass is `125`. -/
def recordA : EventRecord :=
  { njets := 0,
    photon_pt := [60, 40], photon_eta := [1/2, -1/4], photon_phi := [1, -2],
    photon_m := [125/2, 125/2],
    jet_pt := [], jet_eta := [], jet_phi := [], jet_m := [] }

/-- A record with two jets; with `exampleOps` its diphoton mass is `130` and
its leading-jet transverse momentum is `50`. -/
def recordB : EventRecord :=
  { njets := 2,
    photon_pt := [70, 45], photon_eta := [0, 1], photon_phi := [2, -1],
    photon_m := [65, 65],
    jet_pt := [50, 20], jet_eta := [1, -1], jet_phi := [0, 3], jet_m := [5, 3] }

/-- A record with one jet; with `exampleOps` its diphoton mass is `120` and
its leading-jet transverse momentum is `30`. -/
def recordC : EventRecord :=
  { njets := 1,
    photon_pt := [55, 50], photon_eta := [-1, 1], photon_phi := [0, 3],
    photon_m := [60, 60],
    jet_pt := [30], jet_eta := [2], jet_phi := [1], jet_m := [4] }

def exampleArgv : List String := ["example", "data.root", "histograms.root"]

/-- An input file that holds the tree `"HGamData"` with the three records. -/
def exampleFile : List (String × TObject) :=
  [("HGamData", TObject.tree [recordA, recordB, recordC])]

/-- An input file without a tree `"HGamData"`. -/
def exampleFileNoTree : List (String × TObject) :=
  [("HGamData", TObject.other), ("CutFlow", TObject.tree [recordA])]

def exampleEnv : Env :=
  { outOpens := true, outBefore := some [h_m_yy_new.Fill 125], inFile := some exampleFile }

def exampleEnvNoTree : Env :=
  { outOpens := true, outBefore := some [h_m_yy_new.Fill 125],
    inFile := some exampleFileNoTree }

/-- Loop variables as they may stand in the middle of a run: the containers
still hold the vectors of an earlier record. -/
def exampleState : LoopState (ℚ × ℚ) :=
  { cnt := { total := 4, count := 1 },
    photons := [(1, 2), (3, 4)], jets := [(5, 6), (7, 8), (9, 10)],
    h_m_yy := h_m_yy_new.Fill 125, h_pT_j1 := h_pT_j1_new }

/-! ## Lemmas about the histogram -/

theorem AddBinContent_length (cs : List Nat) (b : Nat) :
    (AddBinContent cs b).length = cs.length := by
  induction cs generalizing b with
  | nil => rfl
  | cons c cs ih =>
    cases b with
    | zero => rfl
    | succ b => simp [AddBinContent, ih]

theorem AddBinContent_sum (cs : List Nat) (b : Nat) (hb : b < cs.length) :
    (AddBinContent cs b).sum = cs.sum + 1 := by
  induction cs generalizing b with
  | nil => simp at hb
  | cons c cs ih =>
    cases b with
    | zero => simp [AddBinContent]; omega
    | succ b =>
      have hb1 : b < cs.length := by simpa using hb
      simp [AddBinContent, ih b hb1]; omega

theorem AddBinContent_comm (cs : List Nat) (a b : Nat) :
    AddBinContent (AddBinContent cs a) b = AddBinContent (AddBinContent cs b) a := by
  induction cs generalizing a b with
  | nil => rfl
  | cons c cs ih =>
    cases a with
    | zero =>
      cases b with
      | zero => rfl
      | succ b => rfl
    | succ a =>
      cases b with
      | zero => rfl
      | succ b => simp [AddBinContent, ih a b]

theorem FindBin_le (h : TH1D) (x : ℚ) (hlt : h.xmin < h.xmax) :
    h.FindBin x ≤ h.nbins + 1 := by
  unfold TH1D.FindBin
  split
  · omega
  · split
    · omega
    · rename_i h1 h2
      have hx2 : x < h.xmax := not_not.mp h2
      have hd : (0 : ℚ) < h.xmax - h.xmin := sub_pos.mpr hlt
      have hn : (0 : ℚ) ≤ (h.nbins : ℚ) := Nat.cast_nonneg _
      have hq : (h.nbins : ℚ) * (x - h.xmin) / (h.xmax - h.xmin) ≤ (h.nbins : ℚ) := by
        rw [div_le_iff₀ hd]
        exact mul_le_mul_of_nonneg_left (by linarith) hn
      have hf : Rat.floor ((h.nbins : ℚ) * (x - h.xmin) / (h.xmax - h.xmin)) ≤ (h.nbins : ℤ) := by
        have h3 : (Rat.floor ((h.nbins : ℚ) * (x - h.xmin) / (h.xmax - h.xmin)) : ℚ)
            ≤ (h.nbins : ℚ) * (x - h.xmin) / (h.xmax - h.xmin) :=
          Rat.le_floor.mp le_rfl
        have h4 : (Rat.floor ((h.nbins : ℚ) * (x - h.xmin) / (h.xmax - h.xmin)) : ℚ)
            ≤ ((h.nbins : ℤ) : ℚ) := by
          push_cast; exact le_trans h3 hq
        exact_mod_cast h4
      omega

theorem FindBin_half_open (h : TH1D) (x : ℚ) (hlt : h.xmin < h.xmax) (hn : 0 < h.nbins)
    (h1 : h.xmin ≤ x) (h2 : x < h.xmax) :
    1 ≤ h.FindBin x ∧ h.FindBin x ≤ h.nbins ∧
    h.binLowEdge (h.FindBin x) ≤ x ∧ x < h.binLowEdge (h.FindBin x + 1) := by
  have hd : (0 : ℚ) < h.xmax - h.xmin := sub_pos.mpr hlt
  have hnq : (0 : ℚ) < (h.nbins : ℚ) := Nat.cast_pos.mpr hn
  have hfb : h.FindBin x =
      1 + (⌊(h.nbins : ℚ) * (x - h.xmin) / (h.xmax - h.xmin)⌋).toNat := by
    simp only [TH1D.FindBin, if_neg (not_lt.mpr h1), if_neg (not_not.mpr h2)]
    rfl
  have hq0 : 0 ≤ (h.nbins : ℚ) * (x - h.xmin) / (h.xmax - h.xmin) :=
    div_nonneg (mul_nonneg hnq.le (by linarith)) hd.le
  have hqn : (h.nbins : ℚ) * (x - h.xmin) / (h.xmax - h.xmin) < (h.nbins : ℚ) := by
    rw [div_lt_iff₀ hd]
    exact mul_lt_mul_of_pos_left (by linarith) hnq
  generalize hq : (h.nbins : ℚ) * (x - h.xmin) / (h.xmax - h.xmin) = q at hfb hq0 hqn
  have hk0 : 0 ≤ ⌊q⌋ := Int.floor_nonneg.mpr hq0
  have hkn : ⌊q⌋ < (h.nbins : ℤ) := by
    have : ((⌊q⌋ : ℤ) : ℚ) < ((h.nbins : ℤ) : ℚ) := by
      push_cast
      exact lt_of_le_of_lt (Int.floor_le q) hqn
    exact_mod_cast this
  have hcast : ((⌊q⌋.toNat : ℕ) : ℚ) = ((⌊q⌋ : ℤ) : ℚ) := by
    have : ((⌊q⌋.toNat : ℕ) : ℤ) = ⌊q⌋ := Int.toNat_of_nonneg hk0
    exact_mod_cast congrArg (fun z : ℤ => (z : ℚ)) this
  have hx : x - h.xmin = q * (h.xmax - h.xmin) / (h.nbins : ℚ) := by
    rw [← hq]
    field_simp
  refine ⟨by omega, by omega, ?_, ?_⟩
  · rw [hfb]
    simp only [TH1D.binLowEdge]
    push_cast
    rw [hcast, show (1 + ((⌊q⌋ : ℤ) : ℚ) - 1) = ((⌊q⌋ : ℤ) : ℚ) by ring]
    have h3 : ((⌊q⌋ : ℤ) : ℚ) * (h.xmax - h.xmin) / (h.nbins : ℚ) ≤ x - h.xmin := by
      rw [hx]
      exact div_le_div_of_nonneg_right
        (mul_le_mul_of_nonneg_right (Int.floor_le q) hd.le) hnq.le
    linarith
  · rw [hfb]
    simp only [TH1D.binLowEdge]
    push_cast
    rw [hcast, show (1 + ((⌊q⌋ : ℤ) : ℚ) + 1 - 1) = ((⌊q⌋ : ℤ) : ℚ) + 1 by ring]
    have h3 : x - h.xmin < (((⌊q⌋ : ℤ) : ℚ) + 1) * (h.xmax - h.xmin) / (h.nbins : ℚ) := by
      rw [hx]
      exact div_lt_div_of_pos_right
        (mul_lt_mul_of_pos_right (Int.lt_floor_add_one q) hd) hnq
    linarith

theorem Valid_new (name title : String) (nbins : Nat) (xmin xmax : ℚ) (hlt : xmin < xmax) :
    (TH1D.new name title nbins xmin xmax).Valid := by
  simp [TH1D.Valid, TH1D.new, hlt]

theorem Valid_Fill (h : TH1D) (x : ℚ) (hv : h.Valid) : (h.Fill x).Valid := by
  obtain ⟨h1, h2⟩ := hv
  exact ⟨h1, by simp [TH1D.Fill, AddBinContent_length, h2]⟩

theorem Fill_fEntries (h : TH1D) (x : ℚ) : (h.Fill x).fEntries = h.fEntries + 1 := rfl

theorem Fill_total (h : TH1D) (x : ℚ) (hv : h.Valid) : (h.Fill x).total = h.total + 1 := by
  obtain ⟨h1, h2⟩ := hv
  have hb := FindBin_le h x h1
  simp only [TH1D.total, TH1D.Fill]
  exact AddBinContent_sum _ _ (by omega)

theorem Fill_comm (h : TH1D) (x y : ℚ) : (h.Fill x).Fill y = (h.Fill y).Fill x := by
  simp only [TH1D.Fill, TH1D.FindBin]
  rw [AddBinContent_comm]

/-! ## Lemmas about the particle containers -/

theorem getElem?_eq_some_getD (l : List ℚ) (i : Nat) (h : i < l.length) :
    l[i]? = some (l.getD i 0) := by
  simp [List.getD_eq_getElem?_getD, List.getElem?_eq_getElem h]

theorem setParticles_spec {V : Type} (K : TLorentzVectorOps V) (pt eta phi m : List ℚ)
    (idx : List Nat) (v : List V)
    (hin : ∀ i ∈ idx, i < pt.length ∧ i < eta.length ∧ i < phi.length ∧ i < m.length ∧
      i < v.length) :
    ∃ w, setParticles K pt eta phi m idx v = some w ∧ w.length = v.length ∧
      (∀ j, j ∈ idx → w[j]? = some (particleAt K pt eta phi m j)) ∧
      (∀ j, j ∉ idx → w[j]? = v[j]?) := by
  induction idx generalizing v with
  | nil => exact ⟨v, rfl, rfl, by simp, by simp⟩
  | cons i idx ih =>
    obtain ⟨h1, h2, h3, h4, h5⟩ := hin i (List.mem_cons_self _ _)
    have hin1 : ∀ k ∈ idx, k < pt.length ∧ k < eta.length ∧ k < phi.length ∧ k < m.length ∧
        k < (v.set i (particleAt K pt eta phi m i)).length := by
      intro k hk
      simpa using hin k (List.mem_cons_of_mem _ hk)
    obtain ⟨w, hw, hlen, hset, hother⟩ := ih (v.set i (particleAt K pt eta phi m i)) hin1
    refine ⟨w, ?_, ?_, ?_, ?_⟩
    · simp only [setParticles, getElem?_eq_some_getD _ _ h1, getElem?_eq_some_getD _ _ h2,
        getElem?_eq_some_getD _ _ h3, getElem?_eq_some_getD _ _ h4, if_pos h5]
      exact hw
    · simpa using hlen
    · intro j hj
      by_cases hj1 : j ∈ idx
      · exact hset j hj1
      · have hji : j = i := by
          rcases List.mem_cons.mp hj with h | h
          · exact h
          · exact absurd h hj1
        subst hji
        rw [hother j hj1]
        simp [List.getElem?_set, h5]
    · intro j hj
      have hj1 : j ∉ idx := fun h => hj (List.mem_cons_of_mem _ h)
      have hji : i ≠ j := fun h => hj (h ▸ List.mem_cons_self _ _)
      rw [hother j hj1]
      simp [List.getElem?_set_ne hji]

theorem resize_length {V : Type} (xs : List V) (n : Nat) (d : V) :
    (resize xs n d).length = n := by
  simp only [resize, List.length_append, List.length_take, List.length_replicate]
  omega

theorem eventStep_spec {V : Type} (K : TLorentzVectorOps V) (s : LoopState V)
    (r : EventRecord) (hs : s.photons.length = 2) (hr : r.wf) :
    ∃ t, eventStep K s r = some t ∧ t.photons.length = 2 ∧
      (t.h_m_yy, t.h_pT_j1) = stepHists K (s.h_m_yy, s.h_pT_j1) r := by
  obtain ⟨p1, p2, p3, p4, j1, j2, j3, j4⟩ := hr
  obtain ⟨ph, hph, hphlen, hphset, -⟩ :=
    setParticles_spec K r.photon_pt r.photon_eta r.photon_phi r.photon_m (List.range 2)
      s.photons (by
        intro i hi
        have : i < 2 := List.mem_range.mp hi
        omega)
  obtain ⟨js, hjs, hjslen, hjsset, -⟩ :=
    setParticles_spec K r.jet_pt r.jet_eta r.jet_phi r.jet_m (List.range r.njets)
      (resize s.jets r.njets K.default) (by
        intro i hi
        have : i < r.njets := List.mem_range.mp hi
        rw [resize_length]
        omega)
  have hp0 := hphset 0 (by simp)
  have hp1 := hphset 1 (by simp)
  by_cases hn : r.njets < 1
  · refine ⟨{ cnt := s.cnt, photons := ph, jets := js,
              h_m_yy := s.h_m_yy.Fill (diphotonMass K r), h_pT_j1 := s.h_pT_j1 }, ?_, ?_, ?_⟩
    · simp only [eventStep, hph, hjs, hp0, hp1, if_pos hn]
      rfl
    · simpa using hphlen.trans hs
    · simp [stepHists, hn]
  · have hj0 := hjsset 0 (List.mem_range.mpr (by omega))
    refine ⟨{ cnt := s.cnt, photons := ph, jets := js,
              h_m_yy := s.h_m_yy.Fill (diphotonMass K r),
              h_pT_j1 := s.h_pT_j1.Fill (leadingJetPt K r) }, ?_, ?_, ?_⟩
    · simp only [eventStep, hph, hjs, hp0, hp1, if_neg hn, hj0]
      rfl
    · simpa using hphlen.trans hs
    · simp [stepHists, hn]

theorem eventLoop_spec {V : Type} (K : TLorentzVectorOps V) (rs : List EventRecord)
    (s : LoopState V) (hs : s.photons.length = 2) (hr : ∀ r ∈ rs, r.wf) :
    ∃ t, eventLoop K s rs = some t ∧ t.photons.length = 2 ∧
      (t.h_m_yy, t.h_pT_j1) = rs.foldl (stepHists K) (s.h_m_yy, s.h_pT_j1) := by
  induction rs generalizing s with
  | nil => exact ⟨s, rfl, hs, rfl⟩
  | cons r rs ih =>
    obtain ⟨s1, h1, hlen1, hh1⟩ := eventStep_spec K s r hs (hr r (List.mem_cons_self _ _))
    obtain ⟨t, h2, hlen2, hh2⟩ := ih { s1 with cnt := s1.cnt.incr } hlen1
      (fun q hq => hr q (List.mem_cons_of_mem _ hq))
    refine ⟨t, ?_, hlen2, ?_⟩
    · simp only [eventLoop, h1]
      exact h2
    · rw [hh2, hh1]
      rfl

theorem stepHists_comm {V : Type} (K : TLorentzVectorOps V) (hs : TH1D × TH1D)
    (a b : EventRecord) :
    stepHists K (stepHists K hs a) b = stepHists K (stepHists K hs b) a := by
  unfold stepHists
  by_cases ha : a.njets < 1 <;> by_cases hb : b.njets < 1 <;>
    simp only [ha, hb, if_true, if_false, Fill_comm hs.1 (diphotonMass K a)]
  rw [Fill_comm hs.2 (leadingJetPt K a)]

theorem foldl_stepHists_m_yy {V : Type} (K : TLorentzVectorOps V) (rs : List EventRecord)
    (hs : TH1D × TH1D) (hv : hs.1.Valid) :
    (rs.foldl (stepHists K) hs).1.Valid ∧
    (rs.foldl (stepHists K) hs).1.fEntries = hs.1.fEntries + rs.length ∧
    (rs.foldl (stepHists K) hs).1.total = hs.1.total + rs.length := by
  induction rs generalizing hs with
  | nil => exact ⟨hv, rfl, rfl⟩
  | cons r rs ih =>
    have hv1 : (stepHists K hs r).1.Valid := Valid_Fill _ _ hv
    obtain ⟨h1, h2, h3⟩ := ih (stepHists K hs r) hv1
    refine ⟨h1, ?_, ?_⟩
    · rw [List.foldl_cons, h2]
      simp only [stepHists, Fill_fEntries, List.length_cons]
      omega
    · rw [List.foldl_cons, h3]
      simp only [stepHists, Fill_total _ _ hv, List.length_cons]
      omega

theorem foldl_stepHists_pT_j1 {V : Type} (K : TLorentzVectorOps V) (rs : List EventRecord)
    (hs : TH1D × TH1D) :
    (rs.foldl (stepHists K) hs).2.fEntries =
      hs.2.fEntries + rs.countP (fun q => decide (1 ≤ q.njets)) := by
  induction rs generalizing hs with
  | nil => rfl
  | cons r rs ih =>
    rw [List.foldl_cons, ih, List.countP_cons]
    by_cases hn : r.njets < 1
    · have h1 : ¬ (1 ≤ r.njets) := by omega
      simp [stepHists, hn, h1]
    · have h1 : 1 ≤ r.njets := by omega
      simp only [stepHists, if_neg hn, Fill_fEntries, h1, decide_True, if_true]
      omega

theorem total_new (name title : String) (nbins : Nat) (xmin xmax : ℚ) :
    (TH1D.new name title nbins xmin xmax).total = 0 := by
  simp [TH1D.total, TH1D.new]

theorem GetBinContent_new (name title : String) (nbins : Nat) (xmin xmax : ℚ) (i : Nat) :
    (TH1D.new name title nbins xmin xmax).GetBinContent i = 0 := by
  simp only [TH1D.GetBinContent, TH1D.new, List.getD_eq_getElem?_getD,
    List.getElem?_replicate]
  split <;> rfl

theorem main_success {V : Type} (K : TLorentzVectorOps V) (argv : List String) (env : Env)
    (fin : List (String × TObject)) (tree : List EventRecord)
    (hargc : argv.length = 3) (hout : env.outOpens = true) (hin : env.inFile = some fin)
    (htree : GetTTree fin "HGamData" = some tree) (hwf : ∀ r ∈ tree, r.wf) :
    ∃ t, eventLoop K (initState K tree.length) tree = some t ∧
      (t.h_m_yy, t.h_pT_j1) = tree.foldl (stepHists K) (h_m_yy_new, h_pT_j1_new) ∧
      main K argv env = some
        { code := 0, cout := [readingMessage argv] ++ ["\n"], cerr := [],
          ops := [Op.openOutputRecreate (argv.getD 2 ""), Op.newTH1D "m_yy",
                  Op.newTH1D "pT_j1", Op.openInput (argv.getD 1 ""),
                  Op.getTree "HGamData", Op.write],
          outFile := some [t.h_m_yy, t.h_pT_j1], hists := some (t.h_m_yy, t.h_pT_j1) } := by
  obtain ⟨t, ht, -, hh⟩ :=
    eventLoop_spec K tree (initState K tree.length) (by simp [initState]) hwf
  refine ⟨t, ht, hh, ?_⟩
  simp [main, hargc, hout, hin, htree, ht]

theorem main_usage {V : Type} (K : TLorentzVectorOps V) (argv : List String) (env : Env)
    (hargc : argv.length ≠ 3) :
    main K argv env = some
      { code := 1, cout := [usageMessage argv], cerr := [], ops := [],
        outFile := env.outBefore, hists := none } := by
  simp [main, hargc]

theorem main_output_zombie {V : Type} (K : TLorentzVectorOps V) (argv : List String)
    (env : Env) (hargc : argv.length = 3) (hout : env.outOpens = false) :
    main K argv env = some
      { code := 1, cout := [], cerr := [errOutput],
        ops := [Op.openOutputRecreate (argv.getD 2 "")],
        outFile := env.outBefore, hists := none } := by
  simp [main, hargc, hout]

theorem main_input_zombie {V : Type} (K : TLorentzVectorOps V) (argv : List String)
    (env : Env) (hargc : argv.length = 3) (hout : env.outOpens = true)
    (hin : env.inFile = none) :
    main K argv env = some
      { code := 1, cout := [readingMessage argv], cerr := [errInput],
        ops := [Op.openOutputRecreate (argv.getD 2 ""), Op.newTH1D "m_yy",
                Op.newTH1D "pT_j1", Op.openInput (argv.getD 1 "")],
        outFile := some [], hists := some (h_m_yy_new, h_pT_j1_new) } := by
  simp [main, hargc, hout, hin]

theorem main_no_tree {V : Type} (K : TLorentzVectorOps V) (argv : List String)
    (env : Env) (fin : List (String × TObject)) (hargc : argv.length = 3)
    (hout : env.outOpens = true) (hin : env.inFile = some fin)
    (htree : GetTTree fin "HGamData" = none) :
    main K argv env = some
      { code := 1, cout := [readingMessage argv], cerr := [errTree],
        ops := [Op.openOutputRecreate (argv.getD 2 ""), Op.newTH1D "m_yy",
                Op.newTH1D "pT_j1", Op.openInput (argv.getD 1 ""),
                Op.getTree "HGamData"],
        outFile := some [], hists := some (h_m_yy_new, h_pT_j1_new) } := by
  simp [main, hargc, hout, hin, htree]

theorem main_code_zero {V : Type} (K : TLorentzVectorOps V) (argv : List String)
    (env : Env) (fin : List (String × TObject)) (tree : List EventRecord) (o : Outcome)
    (hargc : argv.length = 3) (hout : env.outOpens = true) (hin : env.inFile = some fin)
    (htree : GetTTree fin "HGamData" = some tree) (ho : main K argv env = some o) :
    o.code = 0 := by
  simp only [main, hargc, hout, hin, htree] at ho
  cases hl : eventLoop K (initState K tree.length) tree with
  | none => simp [hl] at ho
  | some t =>
    simp [hl] at ho
    rw [← ho]

theorem eventStep_binning {V : Type} (K : TLorentzVectorOps V) (s t : LoopState V)
    (r : EventRecord) (a b : TH1D) (ha : s.h_m_yy.sameBinning a)
    (hb : s.h_pT_j1.sameBinning b) (h : eventStep K s r = some t) :
    t.h_m_yy.sameBinning a ∧ t.h_pT_j1.sameBinning b := by
  unfold eventStep at h
  cases h1 : setParticles K r.photon_pt r.photon_eta r.photon_phi r.photon_m (List.range 2)
      s.photons with
  | none => simp [h1] at h
  | some ph =>
    cases h2 : setParticles K r.jet_pt r.jet_eta r.jet_phi r.jet_m (List.range r.njets)
        (resize s.jets r.njets K.default) with
    | none => simp [h1, h2] at h
    | some js =>
      cases h3 : ph[0]? with
      | none => simp [h1, h2, h3] at h
      | some p0 =>
        cases h4 : ph[1]? with
        | none => simp [h1, h2, h3, h4] at h
        | some p1 =>
          by_cases hn : r.njets < 1
          · simp only [h1, h2, h3, h4, if_pos hn, Option.some.injEq] at h
            rw [← h]
            exact ⟨ha, hb⟩
          · cases h5 : js[0]? with
            | none => simp [h1, h2, h3, h4, hn, h5] at h
            | some j0 =>
              simp only [h1, h2, h3, h4, if_neg hn, h5, Option.some.injEq] at h
              rw [← h]
              exact ⟨ha, hb⟩

theorem eventLoop_binning {V : Type} (K : TLorentzVectorOps V) (rs : List EventRecord)
    (s t : LoopState V) (a b : TH1D) (ha : s.h_m_yy.sameBinning a)
    (hb : s.h_pT_j1.sameBinning b) (h : eventLoop K s rs = some t) :
    t.h_m_yy.sameBinning a ∧ t.h_pT_j1.sameBinning b := by
  induction rs generalizing s with
  | nil =>
    cases h
    exact ⟨ha, hb⟩
  | cons r rs ih =>
    simp only [eventLoop] at h
    cases hs : eventStep K s r with
    | none => simp [hs] at h
    | some s1 =>
      simp only [hs] at h
      obtain ⟨h1, h2⟩ := eventStep_binning K s s1 r a b ha hb hs
      exact ih { s1 with cnt := s1.cnt.incr } h1 h2 h

theorem main_hists_binning {V : Type} (K : TLorentzVectorOps V) (argv : List String)
    (env : Env) (o : Outcome) (hm hp : TH1D) (ho : main K argv env = some o)
    (hh : o.hists = some (hm, hp)) :
    hm.sameBinning h_m_yy_new ∧ hp.sameBinning h_pT_j1_new := by
  have hrefl : ∀ a : TH1D, a.sameBinning a := fun a => ⟨rfl, rfl, rfl⟩
  by_cases hargc : argv.length = 3
  · cases hout : env.outOpens with
    | false =>
      rw [main_output_zombie K argv env hargc hout] at ho
      cases ho
      simp at hh
    | true =>
      cases hin : env.inFile with
      | none =>
        rw [main_input_zombie K argv env hargc hout hin] at ho
        cases ho
        simp only [Option.some.injEq, Prod.mk.injEq] at hh
        obtain ⟨h1, h2⟩ := hh
        subst h1 h2
        exact ⟨hrefl _, hrefl _⟩
      | some fin =>
        cases htree : GetTTree fin "HGamData" with
        | none =>
          rw [main_no_tree K argv env fin hargc hout hin htree] at ho
          cases ho
          simp only [Option.some.injEq, Prod.mk.injEq] at hh
          obtain ⟨h1, h2⟩ := hh
          subst h1 h2
          exact ⟨hrefl _, hrefl _⟩
        | some tree =>
          simp only [main, hargc, hout, hin, htree] at ho
          cases hl : eventLoop K (initState K tree.length) tree with
          | none => simp [hl] at ho
          | some t =>
            simp [hl] at ho
            rw [← ho] at hh
            simp only [Option.some.injEq, Prod.mk.injEq] at hh
            obtain ⟨h1, h2⟩ := hh
            subst h1 h2
            exact eventLoop_binning K tree (initState K tree.length) t _ _ (hrefl _)
              (hrefl _) hl
  · rw [main_usage K argv env hargc] at ho
    cases ho
    simp at hh

theorem FindBin_congr (a b : TH1D) (x : ℚ) (h : a.sameBinning b) :
    a.FindBin x = b.FindBin x := by
  obtain ⟨h1, h2, h3⟩ := h
  simp only [TH1D.FindBin, h1, h2, h3]

/-! ## The claims -/

/-- C1: when the input file and its `"HGamData"` tree open, the run completes and
the `m_yy` histogram has received exactly one observation per record of the
tree (its entry count and the sum of its cells, underflow and overflow
included, both equal the number of records); and in every iteration of the
event loop, whatever `njets` is, `m_yy` receives exactly one observation, the
diphoton mass of that record. -/
theorem m_yy_one_observation_per_record {V : Type} (K : TLorentzVectorOps V)
    (argv : List String) (env : Env) (fin : List (String × TObject))
    (tree : List EventRecord)
    (hargc : argv.length = 3) (hout : env.outOpens = true) (hin : env.inFile = some fin)
    (htree : GetTTree fin "HGamData" = some tree) (hwf : ∀ r ∈ tree, r.wf) :
    (∃ o hm hp, main K argv env = some o ∧ o.code = 0 ∧ o.hists = some (hm, hp) ∧
      o.outFile = some [hm, hp] ∧ hm.fEntries = tree.length ∧ hm.total = tree.length) ∧
    (∀ (s : LoopState V) (r : EventRecord), s.photons.length = 2 → r.wf →
      ∃ t, eventStep K s r = some t ∧ t.h_m_yy = s.h_m_yy.Fill (diphotonMass K r) ∧
        t.h_m_yy.fEntries = s.h_m_yy.fEntries + 1) := by
  constructor
  · obtain ⟨t, -, hh, hmain⟩ := main_success K argv env fin tree hargc hout hin htree hwf
    have hv : h_m_yy_new.Valid := Valid_new _ _ _ _ _ (by norm_num)
    obtain ⟨-, h2, h3⟩ := foldl_stepHists_m_yy K tree (h_m_yy_new, h_pT_j1_new) hv
    have h1 : t.h_m_yy = (tree.foldl (stepHists K) (h_m_yy_new, h_pT_j1_new)).1 := by
      rw [← hh]
    refine ⟨_, t.h_m_yy, t.h_pT_j1, hmain, rfl, rfl, rfl, ?_, ?_⟩
    · rw [h1, h2]
      simp [h_m_yy_new, TH1D.new]
    · rw [h1, h3]
      simp [h_m_yy_new, total_new]
  · intro s r hs hr
    obtain ⟨t, ht, -, hh⟩ := eventStep_spec K s r hs hr
    have h1 : t.h_m_yy = s.h_m_yy.Fill (diphotonMass K r) := congrArg Prod.fst hh
    exact ⟨t, ht, h1, by rw [h1]; rfl⟩

theorem m_yy_one_observation_per_record_witness :
    (∃ o hm hp, main exampleOps exampleArgv exampleEnv = some o ∧ o.code = 0 ∧
      o.hists = some (hm, hp) ∧ o.outFile = some [hm, hp] ∧
      hm.fEntries = [recordA, recordB, recordC].length ∧
      hm.total = [recordA, recordB, recordC].length) ∧
    (∀ (s : LoopState (ℚ × ℚ)) (r : EventRecord), s.photons.length = 2 → r.wf →
      ∃ t, eventStep exampleOps s r = some t ∧
        t.h_m_yy = s.h_m_yy.Fill (diphotonMass exampleOps r) ∧
        t.h_m_yy.fEntries = s.h_m_yy.fEntries + 1) :=
  m_yy_one_observation_per_record exampleOps exampleArgv exampleEnv exampleFile
    [recordA, recordB, recordC] (by decide) rfl rfl rfl (by decide)

/-- C2: in every iteration of the event loop the `pT_j1` histogram receives an
observation if and only if the record has `njets ≥ 1`; the observation is then
`Pt()` of the four-vector set from `(jet_pt[0], jet_eta[0], jet_phi[0], jet_m[0])`;
with `njets < 1` the histogram is left as it was; and never more than one
observation is added. -/
theorem pT_j1_filled_iff_njets {V : Type} (K : TLorentzVectorOps V) (s : LoopState V)
    (r : EventRecord) (hs : s.photons.length = 2) (hr : r.wf) :
    ∃ t, eventStep K s r = some t ∧
      (1 ≤ r.njets → ∀ pt eta phi m, r.jet_pt[0]? = some pt → r.jet_eta[0]? = some eta →
        r.jet_phi[0]? = some phi → r.jet_m[0]? = some m →
        t.h_pT_j1 = s.h_pT_j1.Fill (K.Pt (K.SetPtEtaPhiM pt eta phi m))) ∧
      (r.njets < 1 → t.h_pT_j1 = s.h_pT_j1) ∧
      (t.h_pT_j1.fEntries = s.h_pT_j1.fEntries + 1 ↔ 1 ≤ r.njets) ∧
      (t.h_pT_j1.fEntries = s.h_pT_j1.fEntries ↔ r.njets < 1) ∧
      (∀ rs : List EventRecord, (∀ q ∈ rs, q.wf) →
        ∃ u, eventLoop K s rs = some u ∧
          u.h_pT_j1.fEntries =
            s.h_pT_j1.fEntries + rs.countP (fun q => decide (1 ≤ q.njets))) := by
  obtain ⟨t, ht, -, hh⟩ := eventStep_spec K s r hs hr
  have h2 : t.h_pT_j1 = if r.njets < 1 then s.h_pT_j1 else s.h_pT_j1.Fill (leadingJetPt K r) :=
    congrArg Prod.snd hh
  refine ⟨t, ht, ?_, ?_, ?_, ?_, ?_⟩
  · intro hn pt eta phi m h1 h3 h4 h5
    rw [h2, if_neg (show ¬ r.njets < 1 by omega)]
    simp [leadingJetPt, particleAt, List.getD_eq_getElem?_getD, h1, h3, h4, h5]
  · intro hn
    rw [h2, if_pos hn]
  · rw [h2]
    split
    · rename_i hn
      exact ⟨fun h => by omega, fun h => by omega⟩
    · rename_i hn
      exact ⟨fun _ => by omega, fun _ => rfl⟩
  · rw [h2]
    split
    · rename_i hn
      exact ⟨fun _ => hn, fun _ => rfl⟩
    · rename_i hn
      constructor
      · intro h
        have h6 : s.h_pT_j1.fEntries + 1 = s.h_pT_j1.fEntries := h
        omega
      · intro h
        exact absurd h hn
  · intro rs hrs
    obtain ⟨u, hu, -, hhu⟩ := eventLoop_spec K rs s hs hrs
    refine ⟨u, hu, ?_⟩
    have h3 : u.h_pT_j1 = (rs.foldl (stepHists K) (s.h_m_yy, s.h_pT_j1)).2 := by
      rw [← hhu]
    rw [h3, foldl_stepHists_pT_j1]

theorem pT_j1_filled_iff_njets_witness :
    ∃ t, eventStep exampleOps exampleState recordB = some t ∧
      (1 ≤ recordB.njets → ∀ pt eta phi m, recordB.jet_pt[0]? = some pt →
        recordB.jet_eta[0]? = some eta → recordB.jet_phi[0]? = some phi →
        recordB.jet_m[0]? = some m →
        t.h_pT_j1 = exampleState.h_pT_j1.Fill
          (exampleOps.Pt (exampleOps.SetPtEtaPhiM pt eta phi m))) ∧
      (recordB.njets < 1 → t.h_pT_j1 = exampleState.h_pT_j1) ∧
      (t.h_pT_j1.fEntries = exampleState.h_pT_j1.fEntries + 1 ↔ 1 ≤ recordB.njets) ∧
      (t.h_pT_j1.fEntries = exampleState.h_pT_j1.fEntries ↔ recordB.njets < 1) ∧
      (∀ rs : List EventRecord, (∀ q ∈ rs, q.wf) →
        ∃ u, eventLoop exampleOps exampleState rs = some u ∧
          u.h_pT_j1.fEntries =
            exampleState.h_pT_j1.fEntries + rs.countP (fun q => decide (1 ≤ q.njets))) :=
  pT_j1_filled_iff_njets exampleOps exampleState recordB (by decide) (by decide)

/-- C9: the final histograms do not depend on the order of the records: the event
loop over a permutation of a list of records ends with the same `m_yy` and
`pT_j1` histograms (all cells, underflow and overflow included, and the entry
counts) as over the list itself; and what one iteration does to the
histograms depends on the record alone, not on what the `photons` and `jets`
containers hold from earlier records. -/
theorem histograms_order_insensitive {V : Type} (K : TLorentzVectorOps V)
    (s : LoopState V) (rs rs' : List EventRecord) (hs : s.photons.length = 2)
    (hperm : rs.Perm rs') (hwf : ∀ r ∈ rs, r.wf) :
    (∃ t t', eventLoop K s rs = some t ∧ eventLoop K s rs' = some t' ∧
      t'.h_m_yy = t.h_m_yy ∧ t'.h_pT_j1 = t.h_pT_j1) ∧
    (∀ (s1 s2 : LoopState V) (r : EventRecord),
      s1.photons.length = 2 → s2.photons.length = 2 →
      s1.h_m_yy = s2.h_m_yy → s1.h_pT_j1 = s2.h_pT_j1 → r.wf →
      ∃ t1 t2, eventStep K s1 r = some t1 ∧ eventStep K s2 r = some t2 ∧
        t1.h_m_yy = t2.h_m_yy ∧ t1.h_pT_j1 = t2.h_pT_j1) := by
  constructor
  · have hwf' : ∀ r ∈ rs', r.wf := fun r hr => hwf r (hperm.mem_iff.mpr hr)
    obtain ⟨t, ht, -, hh⟩ := eventLoop_spec K rs s hs hwf
    obtain ⟨t', ht', -, hh'⟩ := eventLoop_spec K rs' s hs hwf'
    have hfold : rs.foldl (stepHists K) (s.h_m_yy, s.h_pT_j1) =
        rs'.foldl (stepHists K) (s.h_m_yy, s.h_pT_j1) :=
      List.Perm.foldl_eq' hperm (fun x _ y _ z => stepHists_comm K z x y) _
    have heq : (t'.h_m_yy, t'.h_pT_j1) = (t.h_m_yy, t.h_pT_j1) := by
      rw [hh, hh', hfold]
    exact ⟨t, t', ht, ht', congrArg Prod.fst heq, congrArg Prod.snd heq⟩
  · intro s1 s2 r h1 h2 hm hp hr
    obtain ⟨t1, ht1, -, hh1⟩ := eventStep_spec K s1 r h1 hr
    obtain ⟨t2, ht2, -, hh2⟩ := eventStep_spec K s2 r h2 hr
    have heq : (t1.h_m_yy, t1.h_pT_j1) = (t2.h_m_yy, t2.h_pT_j1) := by
      rw [hh1, hh2, hm, hp]
    exact ⟨t1, t2, ht1, ht2, congrArg Prod.fst heq, congrArg Prod.snd heq⟩

theorem histograms_order_insensitive_witness :
    (∃ t t', eventLoop exampleOps exampleState [recordA, recordB, recordC] = some t ∧
      eventLoop exampleOps exampleState [recordC, recordA, recordB] = some t' ∧
      t'.h_m_yy = t.h_m_yy ∧ t'.h_pT_j1 = t.h_pT_j1) ∧
    (∀ (s1 s2 : LoopState (ℚ × ℚ)) (r : EventRecord),
      s1.photons.length = 2 → s2.photons.length = 2 →
      s1.h_m_yy = s2.h_m_yy → s1.h_pT_j1 = s2.h_pT_j1 → r.wf →
      ∃ t1 t2, eventStep exampleOps s1 r = some t1 ∧ eventStep exampleOps s2 r = some t2 ∧
        t1.h_m_yy = t2.h_m_yy ∧ t1.h_pT_j1 = t2.h_pT_j1) :=
  histograms_order_insensitive exampleOps exampleState [recordA, recordB, recordC]
    [recordC, recordA, recordB] (by decide)
    (List.perm_append_comm : List.Perm ([recordA, recordB] ++ [recordC])
      ([recordC] ++ [recordA, recordB]))
    (by decide)

/-- C4: the exit code of a run is `1` exactly when one of the four failures occurs
(argument count other than two, output file unopenable, input file unopenable,
no tree `"HGamData"` in the input file) and `0` exactly when none does; the
failures are checked in that order: a wrong argument count is reported
whatever the files are, an unopenable output whatever the input is, an
unopenable input before the tree is looked up; each failure stops the run at
its check, and a run without failure over well-formed records ends with code
`0` after the write. -/
theorem exit_code_and_failure_order {V : Type} (K : TLorentzVectorOps V)
    (argv : List String) (env : Env) :
    (∀ o, main K argv env = some o →
      (o.code = 1 ↔ (argv.length ≠ 3 ∨ env.outOpens = false ∨ env.inFile = none ∨
        ∃ fin, env.inFile = some fin ∧ GetTTree fin "HGamData" = none)) ∧
      (o.code = 0 ↔ ¬ (argv.length ≠ 3 ∨ env.outOpens = false ∨ env.inFile = none ∨
        ∃ fin, env.inFile = some fin ∧ GetTTree fin "HGamData" = none))) ∧
    (argv.length ≠ 3 →
      ∃ o, main K argv env = some o ∧ o.code = 1 ∧ o.cout = [usageMessage argv] ∧
        o.cerr = [] ∧ o.ops = []) ∧
    (argv.length = 3 → env.outOpens = false →
      ∃ o, main K argv env = some o ∧ o.code = 1 ∧ o.cerr = [errOutput] ∧
        o.ops = [Op.openOutputRecreate (argv.getD 2 "")]) ∧
    (argv.length = 3 → env.outOpens = true → env.inFile = none →
      ∃ o, main K argv env = some o ∧ o.code = 1 ∧ o.cerr = [errInput] ∧
        o.ops = [Op.openOutputRecreate (argv.getD 2 ""), Op.newTH1D "m_yy",
                 Op.newTH1D "pT_j1", Op.openInput (argv.getD 1 "")]) ∧
    (argv.length = 3 → env.outOpens = true → ∀ fin, env.inFile = some fin →
      GetTTree fin "HGamData" = none →
      ∃ o, main K argv env = some o ∧ o.code = 1 ∧ o.cerr = [errTree] ∧
        o.ops = [Op.openOutputRecreate (argv.getD 2 ""), Op.newTH1D "m_yy",
                 Op.newTH1D "pT_j1", Op.openInput (argv.getD 1 ""),
                 Op.getTree "HGamData"]) ∧
    (argv.length = 3 → env.outOpens = true → ∀ fin tree, env.inFile = some fin →
      GetTTree fin "HGamData" = some tree → (∀ r ∈ tree, r.wf) →
      ∃ o, main K argv env = some o ∧ o.code = 0 ∧ o.cerr = [] ∧
        o.ops.getLast? = some Op.write) := by
  refine ⟨?_, ?_, ?_, ?_, ?_, ?_⟩
  · intro o ho
    by_cases hargc : argv.length = 3
    · cases hout : env.outOpens with
      | false =>
        rw [main_output_zombie K argv env hargc hout] at ho
        cases ho
        simp
      | true =>
        cases hin : env.inFile with
        | none =>
          rw [main_input_zombie K argv env hargc hout hin] at ho
          cases ho
          simp
        | some fin =>
          cases htree : GetTTree fin "HGamData" with
          | none =>
            rw [main_no_tree K argv env fin hargc hout hin htree] at ho
            cases ho
            simp [htree]
          | some tree =>
            have h0 := main_code_zero K argv env fin tree o hargc hout hin htree ho
            simp [h0, hargc, htree]
    · rw [main_usage K argv env hargc] at ho
      cases ho
      simp [hargc]
  · intro hargc
    exact ⟨_, main_usage K argv env hargc, rfl, rfl, rfl, rfl⟩
  · intro hargc hout
    exact ⟨_, main_output_zombie K argv env hargc hout, rfl, rfl, rfl⟩
  · intro hargc hout hin
    exact ⟨_, main_input_zombie K argv env hargc hout hin, rfl, rfl, rfl⟩
  · intro hargc hout fin hin htree
    exact ⟨_, main_no_tree K argv env fin hargc hout hin htree, rfl, rfl, rfl⟩
  · intro hargc hout fin tree hin htree hwf
    obtain ⟨t, -, -, hmain⟩ := main_success K argv env fin tree hargc hout hin htree hwf
    exact ⟨_, hmain, rfl, rfl, rfl⟩

/-- C5: with an argument count other than two (`argc ≠ 3`) the run returns `1`
after printing the usage line and does nothing else: no file operation is
performed, the output path holds what it held before, and no histogram is
created. -/
theorem usage_error_touches_nothing {V : Type} (K : TLorentzVectorOps V)
    (argv : List String) (env : Env) (hargc : argv.length ≠ 3) :
    main K argv env = some
      { code := 1, cout := [usageMessage argv], cerr := [], ops := [],
        outFile := env.outBefore, hists := none } :=
  main_usage K argv env hargc

theorem usage_error_touches_nothing_witness :
    main exampleOps ["example"] exampleEnv = some
      { code := 1, cout := [usageMessage ["example"]], cerr := [], ops := [],
        outFile := exampleEnv.outBefore, hists := none } ∧
    main exampleOps ["example", "data.root"] exampleEnv = some
      { code := 1, cout := [usageMessage ["example", "data.root"]], cerr := [], ops := [],
        outFile := exampleEnv.outBefore, hists := none } ∧
    main exampleOps ["example", "data.root", "histograms.root", "extra"] exampleEnv = some
      { code := 1,
        cout := [usageMessage ["example", "data.root", "histograms.root", "extra"]],
        cerr := [], ops := [], outFile := exampleEnv.outBefore, hists := none } :=
  ⟨usage_error_touches_nothing exampleOps ["example"] exampleEnv (by decide),
   usage_error_touches_nothing exampleOps ["example", "data.root"] exampleEnv (by decide),
   usage_error_touches_nothing exampleOps
     ["example", "data.root", "histograms.root", "extra"] exampleEnv (by decide)⟩

/-- C8: when the input file opens but holds no tree `"HGamData"`, the run ends with
the non-zero code `1`, the write step is not reached, and no histogram is
populated: the histogram objects, if created, have no entry and only empty
cells; when the run got as far as the input (two arguments, output opened)
the error reported is the missing tree and the output file holds no
histogram; otherwise the output path holds what it held before. -/
theorem missing_tree_no_populated_histograms {V : Type} (K : TLorentzVectorOps V)
    (argv : List String) (env : Env) (fin : List (String × TObject))
    (hin : env.inFile = some fin) (htree : GetTTree fin "HGamData" = none) :
    ∃ o, main K argv env = some o ∧ o.code = 1 ∧ o.code ≠ 0 ∧ Op.write ∉ o.ops ∧
      (∀ hm hp, o.hists = some (hm, hp) →
        hm.fEntries = 0 ∧ hp.fEntries = 0 ∧
        ∀ i, hm.GetBinContent i = 0 ∧ hp.GetBinContent i = 0) ∧
      (argv.length = 3 → env.outOpens = true →
        o.cerr = [errTree] ∧ o.outFile = some [] ∧
        o.hists = some (h_m_yy_new, h_pT_j1_new)) ∧
      (¬ (argv.length = 3 ∧ env.outOpens = true) →
        o.outFile = env.outBefore ∧ o.hists = none) := by
  by_cases hargc : argv.length = 3
  · cases hout : env.outOpens with
    | false =>
      refine ⟨_, main_output_zombie K argv env hargc hout, rfl, by simp, by simp, ?_, ?_, ?_⟩
      · intro hm hp h
        simp at h
      · intro _ h
        simp at h
      · intro _
        exact ⟨rfl, rfl⟩
    | true =>
      refine ⟨_, main_no_tree K argv env fin hargc hout hin htree, rfl, by simp, by simp,
        ?_, ?_, ?_⟩
      · intro hm hp h
        simp only [Option.some.injEq, Prod.mk.injEq] at h
        obtain ⟨h1, h2⟩ := h
        subst h1 h2
        exact ⟨rfl, rfl, fun i => ⟨GetBinContent_new _ _ _ _ _ i, GetBinContent_new _ _ _ _ _ i⟩⟩
      · intro _ _
        exact ⟨rfl, rfl, rfl⟩
      · intro h
        exact absurd ⟨hargc, rfl⟩ h
  · refine ⟨_, main_usage K argv env hargc, rfl, by simp, by simp, ?_, ?_, ?_⟩
    · intro hm hp h
      simp at h
    · intro h
      exact absurd h hargc
    · intro _
      exact ⟨rfl, rfl⟩

theorem missing_tree_no_populated_histograms_witness :
    ∃ o, main exampleOps exampleArgv exampleEnvNoTree = some o ∧ o.code = 1 ∧ o.code ≠ 0 ∧
      Op.write ∉ o.ops ∧
      (∀ hm hp, o.hists = some (hm, hp) →
        hm.fEntries = 0 ∧ hp.fEntries = 0 ∧
        ∀ i, hm.GetBinContent i = 0 ∧ hp.GetBinContent i = 0) ∧
      (exampleArgv.length = 3 → exampleEnvNoTree.outOpens = true →
        o.cerr = [errTree] ∧ o.outFile = some [] ∧
        o.hists = some (h_m_yy_new, h_pT_j1_new)) ∧
      (¬ (exampleArgv.length = 3 ∧ exampleEnvNoTree.outOpens = true) →
        o.outFile = exampleEnvNoTree.outBefore ∧ o.hists = none) :=
  missing_tree_no_populated_histograms exampleOps exampleArgv exampleEnvNoTree
    exampleFileNoTree rfl rfl

/-- C10: with two arguments and an output file that opens, a run that then fails on
the input (input file unopenable, or no tree `"HGamData"`) has already
recreated the output file and created both empty histograms before the
failure is detected: the run ends with code `1`, its first operations are the
truncating open of the output and the two histogram constructions, nothing
was written, and the output path holds no histogram whatever it held before. -/
theorem failure_after_output_recreate {V : Type} (K : TLorentzVectorOps V)
    (argv : List String) (env : Env) (hargc : argv.length = 3)
    (hout : env.outOpens = true)
    (hfail : env.inFile = none ∨
      ∃ fin, env.inFile = some fin ∧ GetTTree fin "HGamData" = none) :
    ∃ o, main K argv env = some o ∧ o.code = 1 ∧
      o.ops.take 3 = [Op.openOutputRecreate (argv.getD 2 ""), Op.newTH1D "m_yy",
                      Op.newTH1D "pT_j1"] ∧
      Op.write ∉ o.ops ∧
      o.outFile = some [] ∧
      o.hists = some (h_m_yy_new, h_pT_j1_new) ∧
      h_m_yy_new.fEntries = 0 ∧ h_pT_j1_new.fEntries = 0 ∧
      (o.cerr = [errInput] ∨ o.cerr = [errTree]) := by
  rcases hfail with hin | ⟨fin, hin, htree⟩
  · exact ⟨_, main_input_zombie K argv env hargc hout hin, rfl, rfl, by simp, rfl, rfl, rfl,
      rfl, Or.inl rfl⟩
  · exact ⟨_, main_no_tree K argv env fin hargc hout hin htree, rfl, rfl, by simp, rfl, rfl,
      rfl, rfl, Or.inr rfl⟩

theorem failure_after_output_recreate_witness :
    exampleEnvNoTree.outBefore = some [h_m_yy_new.Fill 125] ∧
    ∃ o, main exampleOps exampleArgv exampleEnvNoTree = some o ∧ o.code = 1 ∧
      o.ops.take 3 = [Op.openOutputRecreate (exampleArgv.getD 2 ""), Op.newTH1D "m_yy",
                      Op.newTH1D "pT_j1"] ∧
      Op.write ∉ o.ops ∧
      o.outFile = some [] ∧
      o.hists = some (h_m_yy_new, h_pT_j1_new) ∧
      h_m_yy_new.fEntries = 0 ∧ h_pT_j1_new.fEntries = 0 ∧
      (o.cerr = [errInput] ∨ o.cerr = [errTree]) :=
  ⟨rfl, failure_after_output_recreate exampleOps exampleArgv exampleEnvNoTree (by decide) rfl
    (Or.inr ⟨exampleFileNoTree, rfl, rfl⟩)⟩

/-- C7: `main` declares `m_yy` with 110 bins over `[105, 160]` and `pT_j1` with 500
bins over `[0, 1000]`, and every run keeps that binning; under the half-open
convention (every value of `[105, 160)` lies in a bin `1 .. 110`, at or above
that bin's lower edge and below the next one's) an `m_yy` value of exactly
`105` falls in the first bin (cell 1) and a value of exactly `160` falls in
the overflow bucket (cell 111), not in the last bin (cell 110). -/
theorem binning_and_boundaries :
    (h_m_yy_new.nbins = 110 ∧ h_m_yy_new.xmin = 105 ∧ h_m_yy_new.xmax = 160) ∧
    (h_pT_j1_new.nbins = 500 ∧ h_pT_j1_new.xmin = 0 ∧ h_pT_j1_new.xmax = 1000) ∧
    (∀ (V : Type) (K : TLorentzVectorOps V) (argv : List String) (env : Env) (o : Outcome)
      (hm hp : TH1D), main K argv env = some o → o.hists = some (hm, hp) →
      (hm.nbins = 110 ∧ hm.xmin = 105 ∧ hm.xmax = 160) ∧
      (hp.nbins = 500 ∧ hp.xmin = 0 ∧ hp.xmax = 1000) ∧
      hm.FindBin 105 = 1 ∧ hm.FindBin 160 = 111) ∧
    (∀ x : ℚ, 105 ≤ x → x < 160 →
      1 ≤ h_m_yy_new.FindBin x ∧ h_m_yy_new.FindBin x ≤ 110 ∧
      h_m_yy_new.binLowEdge (h_m_yy_new.FindBin x) ≤ x ∧
      x < h_m_yy_new.binLowEdge (h_m_yy_new.FindBin x + 1)) ∧
    (∀ x : ℚ, 160 ≤ x → h_m_yy_new.FindBin x = 111) ∧
    (∀ x : ℚ, x < 105 → h_m_yy_new.FindBin x = 0) ∧
    h_m_yy_new.FindBin 105 = 1 ∧
    h_m_yy_new.FindBin 160 = h_m_yy_new.nbins + 1 ∧
    h_m_yy_new.FindBin 160 ≠ h_m_yy_new.nbins ∧
    (h_m_yy_new.Fill 105).GetBinContent 1 = 1 ∧
    (h_m_yy_new.Fill 160).GetBinContent 111 = 1 ∧
    (h_m_yy_new.Fill 160).GetBinContent 110 = 0 := by
  have h105 : h_m_yy_new.FindBin 105 = 1 := by decide!
  have h160 : h_m_yy_new.FindBin 160 = 111 := by decide!
  refine ⟨⟨rfl, rfl, rfl⟩, ⟨rfl, rfl, rfl⟩, ?_, ?_, ?_, ?_, h105, h160, ?_, ?_, ?_, ?_⟩
  · intro V K argv env o hm hp ho hh
    obtain ⟨h1, h2⟩ := main_hists_binning K argv env o hm hp ho hh
    refine ⟨h1, h2, ?_, ?_⟩
    · rw [FindBin_congr hm h_m_yy_new 105 h1]
      exact h105
    · rw [FindBin_congr hm h_m_yy_new 160 h1]
      exact h160
  · intro x h1 h2
    exact FindBin_half_open h_m_yy_new x (by norm_num [h_m_yy_new, TH1D.new])
      (by decide) h1 h2
  · intro x hx
    have h1 : ¬ x < h_m_yy_new.xmin := by
      simp only [h_m_yy_new, TH1D.new, not_lt]
      linarith
    have h2 : ¬ x < h_m_yy_new.xmax := by
      simp only [h_m_yy_new, TH1D.new, not_lt]
      exact hx
    simp only [TH1D.FindBin, if_neg h1, h2, not_false_eq_true, if_true]
    rfl
  · intro x hx
    have h1 : x < h_m_yy_new.xmin := hx
    simp only [TH1D.FindBin, if_pos h1]
  · rw [h160]
    decide
  · decide!
  · decide!
  · decide!

end HGam
